import Mathlib

/-!
Shallow embedding of the game logic in `Game.cpp` of 15-466-f18-game0
(mesh catalog loading, level generation, input handling, motion update),
together with theorems checking the natural-language specification.

Modelling conventions:
* C++ `uint32_t` arithmetic is `Nat` with explicit `% 2 ^ 32` where the
  source can wrap (level generation); `float` state (velocities, avatar
  position) is modelled with `ℚ`.
* `throw`ing constructor code is modelled with `Except String`; undefined
  behaviour that aborts in practice (`rand() % 0`, division by zero) is
  modelled as `Option` failure.
* `rand()` is modelled as an arbitrary stream `ℕ → ℕ` of non-negative
  values; the C++ stream satisfies `0 ≤ rand() ≤ RAND_MAX`, a subset.
-/

namespace Game0

/-! ## Mesh catalog (Game.cpp, constructor, lines 118-191) -/

/-- `struct Mesh { GLuint first; GLuint count; }` (declared in Game.hpp,
used in Game.cpp): a sub-range of the shared vertex buffer. -/
structure Mesh where
  first : ℕ
  count : ℕ
deriving DecidableEq

/-- `struct IndexEntry` (Game.cpp lines 134-139). -/
structure IndexEntry where
  name_begin : ℕ
  name_end : ℕ
  vertex_begin : ℕ
  vertex_end : ℕ
deriving DecidableEq

/-- `std::string(names.begin() + e.name_begin, names.begin() + e.name_end)`
(Game.cpp line 168): the name an index entry denotes. -/
def extractName (names : List Char) (e : IndexEntry) : List Char :=
  (names.drop e.name_begin).take (e.name_end - e.name_begin)

/-- The range-validity checks of Game.cpp lines 158 and 161. -/
def badEntry (names : List Char) (nV : ℕ) (e : IndexEntry) : Prop :=
  e.name_begin > e.name_end ∨ e.name_end > names.length ∨
  e.vertex_begin > e.vertex_end ∨ e.vertex_end > nV

instance (names : List Char) (nV : ℕ) (e : IndexEntry) :
    Decidable (badEntry names nV e) := by
  unfold badEntry; infer_instance

/-- The index-building loop of Game.cpp lines 156-173: iterate over the
index entries, validate name and vertex ranges, and insert
`(name, Mesh{first = vertex_begin, count = vertex_end - vertex_begin})`
into the map, throwing on invalid ranges or duplicate names.  The
`std::map` is modelled as an association list keyed by the name. -/
def loadIndex (names : List Char) (nV : ℕ) :
    List IndexEntry → List (List Char × Mesh) → Except String (List (List Char × Mesh))
  | [], acc => .ok acc
  | e :: es, acc =>
    if e.name_begin > e.name_end ∨ e.name_end > names.length then
      .error "invalid name indices in index."
    else if e.vertex_begin > e.vertex_end ∨ e.vertex_end > nV then
      .error "invalid vertex indices in index."
    else if (acc.lookup (extractName names e)).isSome then
      .error "duplicate name in index."
    else
      loadIndex names nV es
        (acc ++ [(extractName names e, ⟨e.vertex_begin, e.vertex_end - e.vertex_begin⟩)])

/-- The `lookup` lambda of Game.cpp lines 176-182: find a mesh by name,
throwing if absent. -/
def lookupMesh (index : List (List Char × Mesh)) (name : List Char) : Except String Mesh :=
  match index.lookup name with
  | some m => .ok m
  | none => .error "Mesh does not appear in index."

/-- The seven required mesh names looked up in Game.cpp lines 184-190. -/
def requiredNames : List (List Char) :=
  ["Avatar".toList, "Peanut".toList, "Bread".toList, "Jelly".toList,
   "Counter".toList, "Serve".toList, "Tile".toList]

/-- The catalog-loading part of the `Game::Game` constructor
(Game.cpp lines 156-190): build the index from the parsed chunks, then
look up the seven required meshes in source order.  Any throw is a load
failure. -/
def gameLoadMeshes (names : List Char) (nV : ℕ) (entries : List IndexEntry) :
    Except String (List Mesh) :=
  match loadIndex names nV entries [] with
  | .error msg => .error msg
  | .ok index => do
    let avatar ← lookupMesh index "Avatar".toList
    let peanut ← lookupMesh index "Peanut".toList
    let bread ← lookupMesh index "Bread".toList
    let jelly ← lookupMesh index "Jelly".toList
    let counter ← lookupMesh index "Counter".toList
    let serve ← lookupMesh index "Serve".toList
    let tile ← lookupMesh index "Tile".toList
    return [avatar, peanut, bread, jelly, counter, serve, tile]

/-! ## Level generation (Game.cpp, `Game::generate_level`, lines 238-272) -/

/-- `struct Edge { bool is_column; bool is_end; }` (declared in Game.hpp;
field values set in Game.cpp lines 214-217). -/
structure Edge where
  is_column : Bool
  is_end : Bool
deriving DecidableEq

def top : Edge := ⟨false, false⟩
def bottom : Edge := ⟨false, true⟩
def left : Edge := ⟨true, false⟩
def right : Edge := ⟨true, true⟩

/-- `edges = { &top, &bottom, &left, &right }` (Game.cpp line 219).  The
`std::set<const Edge *>` iterates in pointer order; we take it to be the
initializer order (member declaration order in Game.hpp).  All proved
properties are independent of this order. -/
def edges0 : List Edge := [top, bottom, left, right]

/-- `uint32_t` subtraction `a - b` for `a, b < 2 ^ 32`. -/
def sub32 (a b : ℕ) : ℕ := (a + 2 ^ 32 - b) % 2 ^ 32

/-- One iteration body of the placement loop (Game.cpp lines 256-266):
given the chosen edge and the `rand()` value used for the offset, compute
the key cell.  `none` models a fatal stop: `rand() % 0` (when
`max - 2 == 0` after `uint32_t` wrap-around), division by zero
(`board_size.x == 0`), or a violated `assert` (line 264). -/
def keyPlacement (w h : ℕ) (e : Edge) (r : ℕ) : Option (ℕ × ℕ) :=
  let maxExtent := if e.is_column then w else h
  let m := sub32 maxExtent 2
  if m = 0 then none
  else if w = 0 then none
  else
    let placement := (1 + r % m) % 2 ^ 32
    let increment := if e.is_column then w else 1
    let start :=
      (if e.is_end then 1 else 0) *
        (if e.is_column then sub32 w 1 else (w * sub32 h 1) % 2 ^ 32)
    let index := (start + placement * increment) % 2 ^ 32
    let x := index / w
    let y := index % w
    if x = 0 ∨ x = sub32 w 1 ∨ y = 0 ∨ y = sub32 h 1 then some (x, y) else none

/-- The placement loop of Game.cpp lines 253-271: each iteration picks a
remaining edge by rank (`std::next(remaining_edges.begin(), rand() % size)`),
places a key on it, and erases the edge.  `rands` is the `rand()` stream,
consumed two values per iteration. -/
def genLoop (w h : ℕ) (rands : ℕ → ℕ) : ℕ → ℕ → List Edge → Option (List (ℕ × ℕ))
  | 0, _, _ => some []
  | n + 1, k, rem =>
    if hrem : rands k % rem.length < rem.length then
      (keyPlacement w h (rem.get ⟨rands k % rem.length, hrem⟩) (rands (k + 1))).bind fun loc =>
        (genLoop w h rands n (k + 2) (rem.eraseIdx (rands k % rem.length))).map
          fun locs => loc :: locs
    else none

/-- `Game::generate_level` (Game.cpp lines 238-272): place the four keys
(peanut, bread, jelly, serve, in iteration order). -/
def generate_level (w h : ℕ) (rands : ℕ → ℕ) : Option (List (ℕ × ℕ)) :=
  genLoop w h rands 4 0 edges0

/-- `Game::on_edge` (Game.cpp lines 459-461), as a predicate on a cell. -/
def onEdgeCell (w h : ℕ) (loc : ℕ × ℕ) : Prop :=
  loc.1 = 0 ∨ loc.1 = w - 1 ∨ loc.2 = 0 ∨ loc.2 = h - 1

/-- A corner cell of the `w × h` board. -/
def isCorner (w h : ℕ) (loc : ℕ × ℕ) : Prop :=
  (loc.1 = 0 ∨ loc.1 = w - 1) ∧ (loc.2 = 0 ∨ loc.2 = h - 1)

/-- Two cells lie on a common board edge (one of the four boundary lines). -/
def sharesEdge (w h : ℕ) (a b : ℕ × ℕ) : Prop :=
  (a.1 = 0 ∧ b.1 = 0) ∨ (a.1 = w - 1 ∧ b.1 = w - 1) ∨
  (a.2 = 0 ∧ b.2 = 0) ∨ (a.2 = h - 1 ∧ b.2 = h - 1)

/-- On a square `n × n` board, the cell a given edge's key lands on:
the fixed coordinate is on that edge's boundary line and the varying
coordinate is a non-corner offset in `[1, n-2]`. -/
def geomEdge (n : ℕ) (e : Edge) (loc : ℕ × ℕ) : Prop :=
  if e.is_column then
    (loc.2 = if e.is_end then n - 1 else 0) ∧ 1 ≤ loc.1 ∧ loc.1 ≤ n - 2
  else
    (loc.1 = if e.is_end then n - 1 else 0) ∧ 1 ≤ loc.2 ∧ loc.2 ≤ n - 2

/-! ## Controls and event handling (Game.cpp, `Game::handle_event`, lines 275-301) -/

/-- The `controls` struct (declared in Game.hpp, mutated in Game.cpp). -/
structure Controls where
  go_up : Bool
  go_down : Bool
  go_left : Bool
  go_right : Bool
deriving DecidableEq

/-- The event kinds `Game::handle_event` distinguishes:
`SDL_KEYDOWN`, `SDL_KEYUP`, and anything else. -/
inductive EventType where
  | keydown
  | keyup
  | other
deriving DecidableEq

/-- The scancodes `Game::handle_event` distinguishes. -/
inductive Scancode where
  | scanW
  | scanS
  | scanA
  | scanD
  | scanOther
deriving DecidableEq

/-- The parts of an `SDL_Event` the handler reads:
`evt.type`, `evt.key.repeat`, `evt.key.keysym.scancode`. -/
structure SDLEvent where
  etype : EventType
  key_repeat : Bool
  scancode : Scancode

/-- `Game::handle_event` (Game.cpp lines 275-301), restricted to its
effect on `controls` and its return value. -/
def handle_event (evt : SDLEvent) (c : Controls) : Bool × Controls :=
  if evt.etype = .keydown ∧ evt.key_repeat = true then (false, c)
  else if evt.etype = .keydown ∨ evt.etype = .keyup then
    match evt.scancode with
    | .scanW => (true, { c with go_up := evt.etype = .keydown })
    | .scanS => (true, { c with go_down := evt.etype = .keydown })
    | .scanA => (true, { c with go_left := evt.etype = .keydown })
    | .scanD => (true, { c with go_right := evt.etype = .keydown })
    | .scanOther => (false, c)
  else (false, c)

/-! ## Motion update (Game.cpp, `Game::update`, lines 303-366) -/

/-- The per-session constants read by `Game::update`.  Their declarations
and initial values live in Game.hpp (not part of the given sources);
the spec fixes `board_size = (6, 6)` in practice and treats
`acceleration` and `max_velocity` as positive tuning constants. -/
structure GameParams where
  board_w : ℕ
  board_h : ℕ
  acceleration : ℚ
  max_velocity : ℚ

/-- The mutable avatar state read and written by `Game::update`.
`avatar_angle` is the z-axis rotation angle in degrees represented by the
quaternion `avatar_rotation` (all assignments in `update` are pure z-axis
rotations `glm::quat(glm::vec3(0, 0, radians(θ)))`). -/
structure GameState where
  controls : Controls
  x_velocity : ℚ
  y_velocity : ℚ
  avatar_x : ℚ
  avatar_y : ℚ
  avatar_angle : ℚ

/-- `glm::clamp(x, lo, hi) = min(max(x, lo), hi)`. -/
def glm_clamp (x lo hi : ℚ) : ℚ := min (max x lo) hi

/-- The acceleration / facing / zeroing phase of `Game::update`
(Game.cpp lines 330-353): the four direction blocks in source order
(left, right, up, down), then the two no-keys-pressed zeroing rules. -/
def accelPhase (p : GameParams) (s : GameState) (elapsed : ℚ) : GameState :=
  let s1 := if s.controls.go_left then
      { s with x_velocity := s.x_velocity - elapsed * p.acceleration, avatar_angle := 180 }
    else s
  let s2 := if s1.controls.go_right then
      { s1 with x_velocity := s1.x_velocity + elapsed * p.acceleration, avatar_angle := 0 }
    else s1
  let s3 := if s2.controls.go_up then
      { s2 with y_velocity := s2.y_velocity + elapsed * p.acceleration, avatar_angle := 90 }
    else s2
  let s4 := if s3.controls.go_down then
      { s3 with y_velocity := s3.y_velocity - elapsed * p.acceleration, avatar_angle := -90 }
    else s3
  let s5 := if !s4.controls.go_left && !s4.controls.go_right then
      { s4 with x_velocity := 0 }
    else s4
  if !s5.controls.go_up && !s5.controls.go_down then
    { s5 with y_velocity := 0 }
  else s5

/-- The clamped x velocity after the acceleration phase
(Game.cpp line 355). -/
def clampedVX (p : GameParams) (s : GameState) (elapsed : ℚ) : ℚ :=
  glm_clamp (accelPhase p s elapsed).x_velocity (-p.max_velocity) p.max_velocity

/-- The clamped y velocity after the acceleration phase
(Game.cpp line 356). -/
def clampedVY (p : GameParams) (s : GameState) (elapsed : ℚ) : ℚ :=
  glm_clamp (accelPhase p s elapsed).y_velocity (-p.max_velocity) p.max_velocity

/-- `Game::update` (Game.cpp lines 303-366): accelerate, clamp the
velocities, and, when the movement vector `mv = (vx, vy, 0)` is nonzero,
translate the avatar by it and clamp each coordinate to
`[1, board_size-2]` (lines 359-365). -/
def update (p : GameParams) (s : GameState) (elapsed : ℚ) : GameState :=
  let sb := { accelPhase p s elapsed with
              x_velocity := clampedVX p s elapsed, y_velocity := clampedVY p s elapsed }
  if clampedVX p s elapsed = 0 ∧ clampedVY p s elapsed = 0 then sb
  else
    { sb with
      avatar_x := min ((p.board_w : ℚ) - 2) (max 1 (sb.avatar_x + clampedVX p s elapsed)),
      avatar_y := min ((p.board_h : ℚ) - 2) (max 1 (sb.avatar_y + clampedVY p s elapsed)) }

/-- One frame: the event loop sets `controls`, then `update` runs with
the frame's elapsed time. -/
def stepTick (p : GameParams) (s : GameState) (t : Controls × ℚ) : GameState :=
  update p { s with controls := t.1 } t.2

/-- Any number of frames. -/
def runTicks (p : GameParams) (s : GameState) (ticks : List (Controls × ℚ)) : GameState :=
  ticks.foldl (stepTick p) s

/-- The avatar-position invariant of the spec:
position within `[1, board_w-2] × [1, board_h-2]`. -/
def inBox (p : GameParams) (s : GameState) : Prop :=
  1 ≤ s.avatar_x ∧ s.avatar_x ≤ (p.board_w : ℚ) - 2 ∧
  1 ≤ s.avatar_y ∧ s.avatar_y ≤ (p.board_h : ℚ) - 2

/-! ## Concrete blobs used as test inputs -/

/-- A name chunk holding the seven required names back to back. -/
def exNames : List Char := "AvatarPeanutBreadJellyCounterServeTile".toList

/-- An index whose entries name the seven required meshes, each with an
empty (zero-length) vertex range. -/
def exEntries : List IndexEntry :=
  [⟨0, 6, 0, 0⟩, ⟨6, 12, 0, 0⟩, ⟨12, 17, 0, 0⟩, ⟨17, 22, 0, 0⟩,
   ⟨22, 29, 0, 0⟩, ⟨29, 34, 0, 0⟩, ⟨34, 38, 0, 0⟩]

/-! ## Helper lemmas -/

lemma accelPhase_avatar_x (p : GameParams) (s : GameState) (e : ℚ) :
    (accelPhase p s e).avatar_x = s.avatar_x := by
  obtain ⟨⟨gu, gd, gl, gr⟩, vx, vy, ax, ay, ang⟩ := s
  cases gu <;> cases gd <;> cases gl <;> cases gr <;> rfl

lemma accelPhase_avatar_y (p : GameParams) (s : GameState) (e : ℚ) :
    (accelPhase p s e).avatar_y = s.avatar_y := by
  obtain ⟨⟨gu, gd, gl, gr⟩, vx, vy, ax, ay, ang⟩ := s
  cases gu <;> cases gd <;> cases gl <;> cases gr <;> rfl

lemma accelPhase_controls (p : GameParams) (s : GameState) (e : ℚ) :
    (accelPhase p s e).controls = s.controls := by
  obtain ⟨⟨gu, gd, gl, gr⟩, vx, vy, ax, ay, ang⟩ := s
  cases gu <;> cases gd <;> cases gl <;> cases gr <;> rfl

lemma update_x_velocity (p : GameParams) (s : GameState) (e : ℚ) :
    (update p s e).x_velocity = clampedVX p s e := by
  simp only [update]
  split <;> rfl

lemma update_y_velocity (p : GameParams) (s : GameState) (e : ℚ) :
    (update p s e).y_velocity = clampedVY p s e := by
  simp only [update]
  split <;> rfl

lemma update_avatar_angle (p : GameParams) (s : GameState) (e : ℚ) :
    (update p s e).avatar_angle = (accelPhase p s e).avatar_angle := by
  simp only [update]
  split <;> rfl

lemma update_avatar_x (p : GameParams) (s : GameState) (e : ℚ) :
    (update p s e).avatar_x =
      if clampedVX p s e = 0 ∧ clampedVY p s e = 0 then s.avatar_x
      else min ((p.board_w : ℚ) - 2) (max 1 (s.avatar_x + clampedVX p s e)) := by
  simp only [update]
  split <;> simp [accelPhase_avatar_x]

lemma update_avatar_y (p : GameParams) (s : GameState) (e : ℚ) :
    (update p s e).avatar_y =
      if clampedVX p s e = 0 ∧ clampedVY p s e = 0 then s.avatar_y
      else min ((p.board_h : ℚ) - 2) (max 1 (s.avatar_y + clampedVY p s e)) := by
  simp only [update]
  split <;> simp [accelPhase_avatar_y]

lemma glm_clamp_abs_le {x m : ℚ} (hm : 0 ≤ m) : |glm_clamp x (-m) m| ≤ m := by
  rw [abs_le, glm_clamp]
  refine ⟨le_min (le_max_right x (-m)) (by linarith), min_le_right _ _⟩

lemma update_in_box (p : GameParams) (s : GameState) (e : ℚ)
    (hw : 3 ≤ p.board_w) (hh : 3 ≤ p.board_h) (hs : inBox p s) :
    inBox p (update p s e) := by
  have hw1 : (1 : ℚ) ≤ (p.board_w : ℚ) - 2 := by
    have : (3 : ℚ) ≤ (p.board_w : ℚ) := by exact_mod_cast hw
    linarith
  have hh1 : (1 : ℚ) ≤ (p.board_h : ℚ) - 2 := by
    have : (3 : ℚ) ≤ (p.board_h : ℚ) := by exact_mod_cast hh
    linarith
  obtain ⟨hx1, hx2, hy1, hy2⟩ := hs
  unfold inBox
  refine ⟨?_, ?_, ?_, ?_⟩
  · rw [update_avatar_x]; split
    · exact hx1
    · exact le_min hw1 (le_max_left 1 _)
  · rw [update_avatar_x]; split
    · exact hx2
    · exact min_le_left _ _
  · rw [update_avatar_y]; split
    · exact hy1
    · exact le_min hh1 (le_max_left 1 _)
  · rw [update_avatar_y]; split
    · exact hy2
    · exact min_le_left _ _

lemma mem_eraseIdx_of_ne {α : Type} {l : List α} {i : ℕ} {a : α}
    (hi : i < l.length) (ha : a ∈ l) (hne : a ≠ l.get ⟨i, hi⟩) : a ∈ l.eraseIdx i := by
  induction l generalizing i with
  | nil => simp at ha
  | cons b t ih =>
    cases i with
    | zero =>
      rcases List.mem_cons.mp ha with h | h
      · exact absurd h hne
      · simpa [List.eraseIdx] using h
    | succ j =>
      have hj : j < t.length := by simpa using hi
      rcases List.mem_cons.mp ha with h | h
      · simp [List.eraseIdx, h]
      · have h2 := ih hj h (by simpa using hne)
        simp [List.eraseIdx, h2]

lemma get_not_mem_eraseIdx {α : Type} {l : List α} (hl : l.Nodup) {i : ℕ}
    (hi : i < l.length) : l.get ⟨i, hi⟩ ∉ l.eraseIdx i := by
  induction l generalizing i with
  | nil => simp at hi
  | cons b t ih =>
    obtain ⟨hb, ht⟩ := List.nodup_cons.mp hl
    cases i with
    | zero => simpa [List.eraseIdx] using hb
    | succ j =>
      have hj : j < t.length := by simpa using hi
      intro hmem
      simp only [List.eraseIdx] at hmem
      rcases List.mem_cons.mp hmem with h | h
      · exact hb (by rw [← h]; exact List.get_mem t j hj)
      · exact ih ht hj h

lemma sub32_eq {a b : ℕ} (h1 : b ≤ a) (h2 : a < 2 ^ 32) : sub32 a b = a - b := by
  unfold sub32; omega

/-- Evaluation of one placement on the top edge of a square board. -/
lemma keyPlacement_top (n r : ℕ) (h3 : 3 ≤ n) (h16 : n ≤ 65536) :
    keyPlacement n n top r = some (0, 1 + r % (n - 2)) := by
  have h2_32 : n < 2 ^ 32 := by omega
  have hm := sub32_eq (show 2 ≤ n by omega) h2_32
  have hmod : r % (n - 2) < n - 2 := Nat.mod_lt r (by omega)
  simp only [keyPlacement, top, Bool.false_eq_true, Bool.true_eq_false, eq_self_iff_true,
    if_false, if_true, ite_self, Nat.zero_mul, Nat.one_mul, Nat.mul_one, Nat.zero_add,
    Nat.add_zero, hm]
  rw [if_neg (by omega), if_neg (by omega)]
  have e1 : (1 + r % (n - 2)) % 2 ^ 32 = 1 + r % (n - 2) := Nat.mod_eq_of_lt (by omega)
  simp only [e1]
  rw [Nat.div_eq_of_lt (by omega), Nat.mod_eq_of_lt (by omega)]
  rw [if_pos (Or.inl rfl)]

/-- Evaluation of one placement on the bottom edge of a square board. -/
lemma keyPlacement_bottom (n r : ℕ) (h3 : 3 ≤ n) (h16 : n ≤ 65536) :
    keyPlacement n n bottom r = some (n - 1, 1 + r % (n - 2)) := by
  have h2_32 : n < 2 ^ 32 := by omega
  have hm := sub32_eq (show 2 ≤ n by omega) h2_32
  have hm1 := sub32_eq (show 1 ≤ n by omega) h2_32
  have hmod : r % (n - 2) < n - 2 := Nat.mod_lt r (by omega)
  have hmul : n * (n - 1) ≤ 65536 * 65535 := Nat.mul_le_mul h16 (by omega)
  simp only [keyPlacement, bottom, Bool.false_eq_true, Bool.true_eq_false, eq_self_iff_true,
    if_false, if_true, ite_self, Nat.zero_mul, Nat.one_mul, Nat.mul_one, Nat.zero_add,
    Nat.add_zero, hm, hm1]
  rw [if_neg (by omega), if_neg (by omega)]
  have e1 : (1 + r % (n - 2)) % 2 ^ 32 = 1 + r % (n - 2) := Nat.mod_eq_of_lt (by omega)
  have e2 : n * (n - 1) % 2 ^ 32 = n * (n - 1) := Nat.mod_eq_of_lt (by omega)
  simp only [e1, e2]
  have e3 : (n * (n - 1) + (1 + r % (n - 2))) % 2 ^ 32 = n * (n - 1) + (1 + r % (n - 2)) :=
    Nat.mod_eq_of_lt (by omega)
  simp only [e3]
  have e4 : (n * (n - 1) + (1 + r % (n - 2))) / n = n - 1 := by
    rw [Nat.mul_add_div (by omega), Nat.div_eq_of_lt (by omega), Nat.add_zero]
  have e5 : (n * (n - 1) + (1 + r % (n - 2))) % n = 1 + r % (n - 2) := by
    rw [Nat.mul_add_mod, Nat.mod_eq_of_lt (by omega)]
  simp only [e4, e5]
  simp

/-- Evaluation of one placement on the left edge of a square board. -/
lemma keyPlacement_left (n r : ℕ) (h3 : 3 ≤ n) (h16 : n ≤ 65536) :
    keyPlacement n n left r = some (1 + r % (n - 2), 0) := by
  have h2_32 : n < 2 ^ 32 := by omega
  have hm := sub32_eq (show 2 ≤ n by omega) h2_32
  have hmod : r % (n - 2) < n - 2 := Nat.mod_lt r (by omega)
  have hmul : (1 + r % (n - 2)) * n ≤ 65534 * 65536 :=
    Nat.mul_le_mul (by omega) h16
  simp only [keyPlacement, left, Bool.false_eq_true, Bool.true_eq_false, eq_self_iff_true,
    if_false, if_true, ite_self, Nat.zero_mul, Nat.one_mul, Nat.mul_one, Nat.zero_add,
    Nat.add_zero, hm]
  rw [if_neg (by omega), if_neg (by omega)]
  have e1 : (1 + r % (n - 2)) % 2 ^ 32 = 1 + r % (n - 2) := Nat.mod_eq_of_lt (by omega)
  simp only [e1]
  have e2 : (1 + r % (n - 2)) * n % 2 ^ 32 = (1 + r % (n - 2)) * n :=
    Nat.mod_eq_of_lt (by omega)
  simp only [e2]
  have e3 : (1 + r % (n - 2)) * n / n = 1 + r % (n - 2) := by
    rw [Nat.mul_comm, Nat.mul_div_cancel_left _ (show 0 < n by omega)]
  have e4 : (1 + r % (n - 2)) * n % n = 0 := Nat.mul_mod_left _ _
  simp only [e3, e4]
  simp

/-- Evaluation of one placement on the right edge of a square board. -/
lemma keyPlacement_right (n r : ℕ) (h3 : 3 ≤ n) (h16 : n ≤ 65536) :
    keyPlacement n n right r = some (1 + r % (n - 2), n - 1) := by
  have h2_32 : n < 2 ^ 32 := by omega
  have hm := sub32_eq (show 2 ≤ n by omega) h2_32
  have hm1 := sub32_eq (show 1 ≤ n by omega) h2_32
  have hmod : r % (n - 2) < n - 2 := Nat.mod_lt r (by omega)
  have hmul : (1 + r % (n - 2)) * n ≤ 65534 * 65536 :=
    Nat.mul_le_mul (by omega) h16
  simp only [keyPlacement, right, Bool.false_eq_true, Bool.true_eq_false, eq_self_iff_true,
    if_false, if_true, ite_self, Nat.zero_mul, Nat.one_mul, Nat.mul_one, Nat.zero_add,
    Nat.add_zero, hm, hm1]
  rw [if_neg (by omega), if_neg (by omega)]
  have e1 : (1 + r % (n - 2)) % 2 ^ 32 = 1 + r % (n - 2) := Nat.mod_eq_of_lt (by omega)
  simp only [e1]
  have e2 : (n - 1 + (1 + r % (n - 2)) * n) % 2 ^ 32 = n - 1 + (1 + r % (n - 2)) * n :=
    Nat.mod_eq_of_lt (by omega)
  simp only [e2]
  have e3 : (n - 1 + (1 + r % (n - 2)) * n) / n = 1 + r % (n - 2) := by
    rw [Nat.add_comm, Nat.mul_comm, Nat.mul_add_div (by omega),
      Nat.div_eq_of_lt (by omega), Nat.add_zero]
  have e4 : (n - 1 + (1 + r % (n - 2)) * n) % n = n - 1 := by
    rw [Nat.mul_comm, Nat.add_mul_mod_self_left, Nat.mod_eq_of_lt (by omega)]
  simp only [e3, e4]
  simp

/-- On a square board with `3 ≤ n ≤ 65536`, every placement on every
edge succeeds and lands on that edge's boundary line at a non-corner
offset. -/
lemma keyPlacement_square {n : ℕ} (h3 : 3 ≤ n) (h16 : n ≤ 65536) {e : Edge}
    (he : e ∈ edges0) (r : ℕ) :
    ∃ loc, keyPlacement n n e r = some loc ∧ geomEdge n e loc := by
  have hmod : r % (n - 2) < n - 2 := Nat.mod_lt r (by omega)
  simp only [edges0, List.mem_cons, List.not_mem_nil, or_false] at he
  rcases he with rfl | rfl | rfl | rfl
  · exact ⟨(0, 1 + r % (n - 2)), keyPlacement_top n r h3 h16, by
      simp [geomEdge, top]; omega⟩
  · exact ⟨(n - 1, 1 + r % (n - 2)), keyPlacement_bottom n r h3 h16, by
      simp [geomEdge, bottom]; omega⟩
  · exact ⟨(1 + r % (n - 2), 0), keyPlacement_left n r h3 h16, by
      simp [geomEdge, left]; omega⟩
  · exact ⟨(1 + r % (n - 2), n - 1), keyPlacement_right n r h3 h16, by
      simp [geomEdge, right]; omega⟩

/-- Keys whose (distinct) edges both come from the edge set never share
a board edge, on a square board with `n ≥ 3`. -/
lemma geomEdge_not_shares {n : ℕ} (h3 : 3 ≤ n) {e1 e2 : Edge}
    (he1 : e1 ∈ edges0) (he2 : e2 ∈ edges0) (hne : e1 ≠ e2) {a b : ℕ × ℕ}
    (ha : geomEdge n e1 a) (hb : geomEdge n e2 b) : ¬ sharesEdge n n a b := by
  obtain ⟨a1, a2⟩ := a
  obtain ⟨b1, b2⟩ := b
  simp only [edges0, List.mem_cons, List.not_mem_nil, or_false] at he1 he2
  rcases he1 with rfl | rfl | rfl | rfl <;> rcases he2 with rfl | rfl | rfl | rfl <;>
    first
      | exact absurd rfl hne
      | (simp only [geomEdge, top, bottom, left, right, sharesEdge, if_true, if_false,
          Bool.false_eq_true, Bool.true_eq_false] at ha hb ⊢
         omega)

lemma genLoop_succ (w h : ℕ) (rands : ℕ → ℕ) (m k : ℕ) (rem : List Edge) :
    genLoop w h rands (m + 1) k rem =
      if hrem : rands k % rem.length < rem.length then
        (keyPlacement w h (rem.get ⟨rands k % rem.length, hrem⟩) (rands (k + 1))).bind fun loc =>
          (genLoop w h rands m (k + 2) (rem.eraseIdx (rands k % rem.length))).map
            fun locs => loc :: locs
      else none := by
  rw [genLoop]

/-- The monotone invariant of the placement loop on a square board:
every iteration succeeds, each produced location lies on the geometric
edge of a remaining edge, and no two produced locations share an edge. -/
lemma genLoop_square {n : ℕ} (h3 : 3 ≤ n) (h16 : n ≤ 65536) (rands : ℕ → ℕ) :
    ∀ (m : ℕ) (rem : List Edge) (k : ℕ), rem.length = m → rem ⊆ edges0 → rem.Nodup →
    ∃ locs, genLoop n n rands m k rem = some locs ∧
      locs.length = m ∧
      (∀ loc ∈ locs, ∃ e ∈ rem, geomEdge n e loc) ∧
      locs.Pairwise (fun a b => ¬ sharesEdge n n a b) := by
  intro m
  induction m with
  | zero =>
    intro rem k hlen hsub hnd
    exact ⟨[], rfl, rfl, by simp, List.Pairwise.nil⟩
  | succ m ih =>
    intro rem k hlen hsub hnd
    have hpos : 0 < rem.length := by omega
    have hlt : rands k % rem.length < rem.length := Nat.mod_lt _ hpos
    have hpmem : rem.get ⟨rands k % rem.length, hlt⟩ ∈ rem := List.get_mem rem _ hlt
    obtain ⟨loc, hloc, hgeom⟩ := keyPlacement_square h3 h16 (hsub hpmem) (rands (k + 1))
    have hsub' : rem.eraseIdx (rands k % rem.length) ⊆ edges0 :=
      fun x hx => hsub ((List.eraseIdx_sublist rem _).subset hx)
    have hnd' := hnd.sublist (List.eraseIdx_sublist rem (rands k % rem.length))
    have hlen' : (rem.eraseIdx (rands k % rem.length)).length = m := by
      have := List.length_eraseIdx_add_one hlt
      omega
    obtain ⟨locs, hlocs, hlcount, hlgeom, hlpair⟩ :=
      ih (rem.eraseIdx (rands k % rem.length)) (k + 2) hlen' hsub' hnd'
    refine ⟨loc :: locs, ?_, by simp [hlcount], ?_, ?_⟩
    · rw [genLoop_succ, dif_pos hlt]
      simp only [hloc, hlocs]
      rfl
    · intro l hl
      rcases List.mem_cons.mp hl with rfl | hl2
      · exact ⟨rem.get ⟨rands k % rem.length, hlt⟩, hpmem, hgeom⟩
      · obtain ⟨e, he, hge⟩ := hlgeom l hl2
        exact ⟨e, (List.eraseIdx_sublist rem _).subset he, hge⟩
    · rw [List.pairwise_cons]
      refine ⟨?_, hlpair⟩
      intro b hb
      obtain ⟨e2, he2, hge2⟩ := hlgeom b hb
      have hne : rem.get ⟨rands k % rem.length, hlt⟩ ≠ e2 := by
        intro hEq
        exact get_not_mem_eraseIdx hnd hlt (hEq ▸ he2)
      exact geomEdge_not_shares h3 (hsub hpmem) (hsub' he2) hne hgeom hge2

/-- If some edge in the remaining set can never be placed (its
`keyPlacement` always aborts), a full pass over the remaining edges
aborts. -/
lemma genLoop_none_of_bad {w h : ℕ} (rands : ℕ → ℕ) {e : Edge}
    (hbad : ∀ r, keyPlacement w h e r = none) :
    ∀ (m : ℕ) (rem : List Edge) (k : ℕ), rem.length = m → e ∈ rem →
      genLoop w h rands m k rem = none := by
  intro m
  induction m with
  | zero =>
    intro rem k hlen hmem
    rw [List.length_eq_zero.mp hlen] at hmem
    simp at hmem
  | succ m ih =>
    intro rem k hlen hmem
    have hpos : 0 < rem.length := by omega
    have hlt : rands k % rem.length < rem.length := Nat.mod_lt _ hpos
    rw [genLoop_succ, dif_pos hlt]
    by_cases hpe : rem.get ⟨rands k % rem.length, hlt⟩ = e
    · rw [hpe, hbad]
      rfl
    · cases hkp : keyPlacement w h (rem.get ⟨rands k % rem.length, hlt⟩) (rands (k + 1)) with
      | none => rfl
      | some loc =>
        have hlen' : (rem.eraseIdx (rands k % rem.length)).length = m := by
          have := List.length_eraseIdx_add_one hlt
          omega
        have hmem' : e ∈ rem.eraseIdx (rands k % rem.length) :=
          mem_eraseIdx_of_ne hlt hmem (fun hc => hpe hc.symm)
        rw [ih _ (k + 2) hlen' hmem']
        rfl

/-- With a dimension of exactly 2, the edges perpendicular to it can
never be placed: `max - 2 == 0` and `rand() % 0` is a fatal abort. -/
lemma keyPlacement_top_dim2 (w : ℕ) (r : ℕ) : keyPlacement w 2 top r = none := by
  simp [keyPlacement, top, sub32]

lemma keyPlacement_left_dim2 (h : ℕ) (r : ℕ) : keyPlacement 2 h left r = none := by
  simp [keyPlacement, left, sub32]

/-! ## Claim theorems: motion -/

/-- **C2.** For every sequence of control states and every sequence of
non-negative elapsed times, after any number of update ticks the avatar
position stays within `[1, board_w-2] × [1, board_h-2]`, given a board
of width and height at least 3 and an initial avatar position in that
range. -/
theorem avatar_position_invariant (p : GameParams) (s0 : GameState)
    (ticks : List (Controls × ℚ)) (hw : 3 ≤ p.board_w) (hh : 3 ≤ p.board_h)
    (hs : inBox p s0) (ht : ∀ t ∈ ticks, 0 ≤ t.2) :
    inBox p (runTicks p s0 ticks) := by
  induction ticks generalizing s0 with
  | nil => exact hs
  | cons t ts ih =>
    have h1 : inBox p (stepTick p s0 t) :=
      update_in_box p { s0 with controls := t.1 } t.2 hw hh hs
    exact ih (stepTick p s0 t) h1 fun u hu => ht u (List.mem_cons_of_mem t hu)

theorem avatar_position_invariant_witness :
    inBox ⟨6, 6, 5, 4⟩
      (runTicks ⟨6, 6, 5, 4⟩ ⟨⟨false, false, false, false⟩, 0, 0, 1, 1, 0⟩
        [(⟨false, false, false, true⟩, 1 / 10)]) :=
  avatar_position_invariant ⟨6, 6, 5, 4⟩ ⟨⟨false, false, false, false⟩, 0, 0, 1, 1, 0⟩
    [(⟨false, false, false, true⟩, 1 / 10)] (by norm_num) (by norm_num)
    (by refine ⟨le_refl 1, by norm_num, le_refl 1, by norm_num⟩)
    (by intro t htm; rw [List.mem_singleton] at htm; rw [htm]; norm_num)

/-- **C3.** After every call to update, for any elapsed time `Δt ≥ 0` and
any acceleration magnitude, both velocity components satisfy
`|x_velocity| ≤ max_velocity` and `|y_velocity| ≤ max_velocity`
(for the game's nonnegative `max_velocity` constant). -/
theorem velocity_clamped_after_update (p : GameParams) (s : GameState) (e : ℚ)
    (hm : 0 ≤ p.max_velocity) (he : 0 ≤ e) :
    |(update p s e).x_velocity| ≤ p.max_velocity ∧
    |(update p s e).y_velocity| ≤ p.max_velocity := by
  rw [update_x_velocity, update_y_velocity, clampedVX, clampedVY]
  exact ⟨glm_clamp_abs_le hm, glm_clamp_abs_le hm⟩

theorem velocity_clamped_after_update_witness :
    |(update ⟨6, 6, 5, 4⟩ ⟨⟨false, false, false, true⟩, 0, 0, 1, 1, 0⟩ (1 / 10)).x_velocity| ≤
        (4 : ℚ) ∧
      |(update ⟨6, 6, 5, 4⟩ ⟨⟨false, false, false, true⟩, 0, 0, 1, 1, 0⟩ (1 / 10)).y_velocity| ≤
        (4 : ℚ) :=
  velocity_clamped_after_update ⟨6, 6, 5, 4⟩ ⟨⟨false, false, false, true⟩, 0, 0, 1, 1, 0⟩
    (1 / 10) (by norm_num) (by norm_num)

/-- **C4.** In a tick where both opposing keys of an axis are held, the
net change to that axis's velocity from the acceleration-and-zeroing
phase is zero: the two accelerations cancel arithmetically, neither
direction takes priority, and the no-keys-pressed zeroing rule does not
fire on that axis. -/
theorem opposing_keys_cancel (p : GameParams) (s : GameState) (e : ℚ) :
    (s.controls.go_left = true → s.controls.go_right = true →
      (accelPhase p s e).x_velocity = s.x_velocity) ∧
    (s.controls.go_up = true → s.controls.go_down = true →
      (accelPhase p s e).y_velocity = s.y_velocity) := by
  obtain ⟨⟨gu, gd, gl, gr⟩, vx, vy, ax, ay, ang⟩ := s
  constructor <;> intro h1 h2 <;>
    cases gu <;> cases gd <;> cases gl <;> cases gr <;>
    simp_all [accelPhase]

theorem opposing_keys_cancel_witness :
    (accelPhase ⟨6, 6, 5, 4⟩ ⟨⟨true, true, true, true⟩, 2, 3, 1, 1, 0⟩ (1 / 10)).x_velocity = 2 ∧
      (accelPhase ⟨6, 6, 5, 4⟩ ⟨⟨true, true, true, true⟩, 2, 3, 1, 1, 0⟩ (1 / 10)).y_velocity = 3 :=
  ⟨(opposing_keys_cancel ⟨6, 6, 5, 4⟩ ⟨⟨true, true, true, true⟩, 2, 3, 1, 1, 0⟩ (1 / 10)).1
      rfl rfl,
    (opposing_keys_cancel ⟨6, 6, 5, 4⟩ ⟨⟨true, true, true, true⟩, 2, 3, 1, 1, 0⟩ (1 / 10)).2
      rfl rfl⟩

/-- **C10.** In every update tick the avatar facing ends as the rotation
of the last pressed direction in the fixed evaluation order
left (180°), right (0°), up (90°), down (−90°) — in particular go_down
always wins — and when no direction flag is pressed the facing is left
unchanged. -/
theorem facing_from_last_pressed (p : GameParams) (s : GameState) (e : ℚ) :
    (s.controls.go_down = true → (update p s e).avatar_angle = -90) ∧
    (s.controls.go_down = false → s.controls.go_up = true →
      (update p s e).avatar_angle = 90) ∧
    (s.controls.go_down = false → s.controls.go_up = false →
      s.controls.go_right = true → (update p s e).avatar_angle = 0) ∧
    (s.controls.go_down = false → s.controls.go_up = false →
      s.controls.go_right = false → s.controls.go_left = true →
      (update p s e).avatar_angle = 180) ∧
    (s.controls.go_down = false → s.controls.go_up = false →
      s.controls.go_right = false → s.controls.go_left = false →
      (update p s e).avatar_angle = s.avatar_angle) := by
  simp only [update_avatar_angle]
  obtain ⟨⟨gu, gd, gl, gr⟩, vx, vy, ax, ay, ang⟩ := s
  cases gu <;> cases gd <;> cases gl <;> cases gr <;> simp [accelPhase]

theorem facing_from_last_pressed_witness :
    (update ⟨6, 6, 5, 4⟩ ⟨⟨true, true, true, true⟩, 0, 0, 1, 1, 0⟩ (1 / 10)).avatar_angle = -90 :=
  (facing_from_last_pressed ⟨6, 6, 5, 4⟩ ⟨⟨true, true, true, true⟩, 0, 0, 1, 1, 0⟩ (1 / 10)).1 rfl

/-- **C5.** Each pressed direction changes the corresponding velocity
component by `acceleration × Δt` in the acceleration phase; the avatar
position is translated by the clamped velocity vector directly (a
per-tick offset, not velocity × Δt) when it is nonzero and then clamped;
and in the concrete scenario (avatar at (1,1), go_right held,
acceleration 5, Δt = 0.1) one tick makes `x_velocity` 0.5 (clamped at
`max_velocity`) and moves `avatar_location.x` by it, staying within
`[1, board_w-2]`. -/
theorem per_tick_velocity_and_displacement (p : GameParams) (s : GameState) (e : ℚ) :
    (s.controls.go_right = true → s.controls.go_left = false →
      (accelPhase p s e).x_velocity = s.x_velocity + e * p.acceleration) ∧
    (s.controls.go_left = true → s.controls.go_right = false →
      (accelPhase p s e).x_velocity = s.x_velocity - e * p.acceleration) ∧
    (s.controls.go_up = true → s.controls.go_down = false →
      (accelPhase p s e).y_velocity = s.y_velocity + e * p.acceleration) ∧
    (s.controls.go_down = true → s.controls.go_up = false →
      (accelPhase p s e).y_velocity = s.y_velocity - e * p.acceleration) ∧
    ((update p s e).x_velocity = clampedVX p s e) ∧
    ((update p s e).avatar_x =
      if clampedVX p s e = 0 ∧ clampedVY p s e = 0 then s.avatar_x
      else min ((p.board_w : ℚ) - 2) (max 1 (s.avatar_x + clampedVX p s e))) ∧
    (s.controls = ⟨false, false, false, true⟩ → s.x_velocity = 0 → s.y_velocity = 0 →
      s.avatar_x = 1 → p.acceleration = 5 → e = 1 / 10 →
      0 < p.max_velocity → 3 ≤ p.board_w →
      (update p s e).x_velocity = min p.max_velocity (1 / 2) ∧
      (update p s e).avatar_x =
        min ((p.board_w : ℚ) - 2) (1 + min p.max_velocity (1 / 2)) ∧
      1 ≤ (update p s e).avatar_x ∧ (update p s e).avatar_x ≤ (p.board_w : ℚ) - 2) := by
  refine ⟨?_, ?_, ?_, ?_, update_x_velocity p s e, update_avatar_x p s e, ?_⟩
  · intro h1 h2
    obtain ⟨⟨gu, gd, gl, gr⟩, vx, vy, ax, ay, ang⟩ := s
    cases gu <;> cases gd <;> cases gl <;> cases gr <;> simp_all [accelPhase]
  · intro h1 h2
    obtain ⟨⟨gu, gd, gl, gr⟩, vx, vy, ax, ay, ang⟩ := s
    cases gu <;> cases gd <;> cases gl <;> cases gr <;> simp_all [accelPhase]
  · intro h1 h2
    obtain ⟨⟨gu, gd, gl, gr⟩, vx, vy, ax, ay, ang⟩ := s
    cases gu <;> cases gd <;> cases gl <;> cases gr <;> simp_all [accelPhase]
  · intro h1 h2
    obtain ⟨⟨gu, gd, gl, gr⟩, vx, vy, ax, ay, ang⟩ := s
    cases gu <;> cases gd <;> cases gl <;> cases gr <;> simp_all [accelPhase]
  · intro hc hvx hvy hax hacc he hm hw
    obtain ⟨c, vx, vy, ax, ay, ang⟩ := s
    have hc' : c = ⟨false, false, false, true⟩ := hc
    subst hc'
    have hvx' : vx = 0 := hvx
    have hvy' : vy = 0 := hvy
    have hax' : ax = 1 := hax
    subst hvx'; subst hvy'; subst hax'; subst he
    have hclx : clampedVX p ⟨⟨false, false, false, true⟩, 0, 0, 1, ay, ang⟩ (1 / 10) =
        min p.max_velocity (1 / 2) := by
      have h1 : (accelPhase p ⟨⟨false, false, false, true⟩, 0, 0, 1, ay, ang⟩
          (1 / 10)).x_velocity = 1 / 2 := by
        simp [accelPhase, hacc]
        norm_num
      rw [clampedVX, h1, glm_clamp]
      rw [max_eq_left (by linarith : -p.max_velocity ≤ (1 : ℚ) / 2)]
      exact min_comm _ _
    have hcly : clampedVY p ⟨⟨false, false, false, true⟩, 0, 0, 1, ay, ang⟩ (1 / 10) = 0 := by
      have h1 : (accelPhase p ⟨⟨false, false, false, true⟩, 0, 0, 1, ay, ang⟩
          (1 / 10)).y_velocity = 0 := by
        simp [accelPhase]
      rw [clampedVY, h1, glm_clamp]
      rw [max_eq_left (by linarith : -p.max_velocity ≤ (0 : ℚ))]
      exact min_eq_left hm.le
    have hpos : 0 < min p.max_velocity (1 / 2) := lt_min hm (by norm_num)
    have hw' : (1 : ℚ) ≤ (p.board_w : ℚ) - 2 := by
      have : (3 : ℚ) ≤ (p.board_w : ℚ) := by exact_mod_cast hw
      linarith
    have hxeq : (update p ⟨⟨false, false, false, true⟩, 0, 0, 1, ay, ang⟩ (1 / 10)).avatar_x =
        min ((p.board_w : ℚ) - 2) (1 + min p.max_velocity (1 / 2)) := by
      rw [update_avatar_x, hclx, hcly, if_neg (by intro hcon; exact hpos.ne' hcon.1)]
      rw [max_eq_right (by linarith : (1 : ℚ) ≤ 1 + min p.max_velocity (1 / 2))]
    refine ⟨?_, hxeq, ?_, ?_⟩
    · rw [update_x_velocity, hclx]
    · rw [hxeq]; exact le_min hw' (by linarith)
    · rw [hxeq]; exact min_le_left _ _

theorem per_tick_velocity_and_displacement_witness :
    (update ⟨6, 6, 5, 4⟩ ⟨⟨false, false, false, true⟩, 0, 0, 1, 1, 0⟩ (1 / 10)).x_velocity =
        min (4 : ℚ) (1 / 2) ∧
      (update ⟨6, 6, 5, 4⟩ ⟨⟨false, false, false, true⟩, 0, 0, 1, 1, 0⟩ (1 / 10)).avatar_x =
        min (((6 : ℕ) : ℚ) - 2) (1 + min (4 : ℚ) (1 / 2)) ∧
      1 ≤ (update ⟨6, 6, 5, 4⟩ ⟨⟨false, false, false, true⟩, 0, 0, 1, 1, 0⟩ (1 / 10)).avatar_x ∧
      (update ⟨6, 6, 5, 4⟩ ⟨⟨false, false, false, true⟩, 0, 0, 1, 1, 0⟩ (1 / 10)).avatar_x ≤
        ((6 : ℕ) : ℚ) - 2 :=
  (per_tick_velocity_and_displacement ⟨6, 6, 5, 4⟩
      ⟨⟨false, false, false, true⟩, 0, 0, 1, 1, 0⟩ (1 / 10)).2.2.2.2.2.2
    rfl rfl rfl rfl rfl rfl (by norm_num) (by norm_num)


/-! ## Claim theorems: level generation -/

/-- **C1 (amended).** For every square board with side `3 ≤ n ≤ 65536`,
`generate_level` produces four key locations that lie on four
pairwise-distinct board edges, none on a corner cell, all within board
bounds.  (The unamended claim, for all boards with both dimensions at
least 3, is refuted by `generate_level_claim_counterexample`.) -/
theorem generate_level_square_props (n : ℕ) (rands : ℕ → ℕ) (h3 : 3 ≤ n)
    (h16 : n ≤ 65536) :
    ∃ locs, generate_level n n rands = some locs ∧ locs.length = 4 ∧
      (∀ loc ∈ locs, loc.1 < n ∧ loc.2 < n ∧ onEdgeCell n n loc ∧ ¬ isCorner n n loc) ∧
      locs.Pairwise (fun a b => ¬ sharesEdge n n a b) := by
  obtain ⟨locs, hgen, hlen, hgeom, hpair⟩ :=
    genLoop_square h3 h16 rands 4 edges0 0 rfl (fun x hx => hx) (by decide)
  refine ⟨locs, hgen, hlen, ?_, hpair⟩
  intro loc hl
  obtain ⟨e, he, hge⟩ := hgeom loc hl
  simp only [edges0, List.mem_cons, List.not_mem_nil, or_false] at he
  obtain ⟨l1, l2⟩ := loc
  rcases he with rfl | rfl | rfl | rfl <;>
    simp only [geomEdge, top, bottom, left, right, onEdgeCell, isCorner,
      if_true, if_false, Bool.false_eq_true, Bool.true_eq_false] at hge ⊢ <;>
    omega

theorem generate_level_square_props_witness :
    ∃ locs, generate_level 6 6 (fun _ => 0) = some locs ∧ locs.length = 4 ∧
      (∀ loc ∈ locs, loc.1 < 6 ∧ loc.2 < 6 ∧ onEdgeCell 6 6 loc ∧ ¬ isCorner 6 6 loc) ∧
      locs.Pairwise (fun a b => ¬ sharesEdge 6 6 a b) :=
  generate_level_square_props 6 (fun _ => 0) (by norm_num) (by norm_num)

/-- **C1 counterexample.**  The claim quantifies over every board with
both dimensions at least 3.  On the 3×4 board the index arithmetic of
the bottom edge produces an off-board cell and the placement assert
fires, so generation aborts instead of producing four locations; and on
the square 65537×65537 board `board_size.x * (board_size.y - 1)` wraps
around `2^32`, the run completes, and it returns the location `(1, 0)`
twice — two keys on the same board edge (the very same cell). -/
theorem generate_level_claim_counterexample :
    generate_level 3 4 (fun _ => 0) = none ∧
    generate_level 65537 65537 (fun _ => 0) =
      some [(0, 1), (1, 0), (1, 0), (1, 65536)] ∧
    sharesEdge 65537 65537 (1, 0) (1, 0) := by
  refine ⟨by rfl, by rfl, Or.inr (Or.inr (Or.inl ⟨rfl, rfl⟩))⟩

/-- **C9 (amended).** If a board dimension is exactly 2 (perpendicular
extent 2, so `max - 2 == 0`), level generation always aborts fatally at
the `rand() % 0` of the corresponding edge.  (For dimensions below 2
the claimed failure does not happen: see
`generate_level_tiny_board_counterexample`.) -/
theorem generate_level_extent_two_fails (w h : ℕ) (rands : ℕ → ℕ)
    (hwh : w = 2 ∨ h = 2) : generate_level w h rands = none := by
  rcases hwh with rfl | rfl
  · exact genLoop_none_of_bad rands (keyPlacement_left_dim2 h) 4 edges0 0 rfl (by decide)
  · exact genLoop_none_of_bad rands (keyPlacement_top_dim2 w) 4 edges0 0 rfl (by decide)

theorem generate_level_extent_two_fails_witness :
    generate_level 5 2 (fun _ => 0) = none :=
  generate_level_extent_two_fails 5 2 (fun _ => 0) (Or.inr rfl)

/-- **C9 counterexample.**  On the 1×1 board (perpendicular extent
1 < 3 on every edge) generation does not fail: `max - 2` wraps to
`2^32 - 1`, every placement assert happens to pass, and four copies of
the out-of-bounds location `(1, 0)` are produced (`1` is not a valid
coordinate on a board of width 1). -/
theorem generate_level_tiny_board_counterexample :
    generate_level 1 1 (fun _ => 0) = some [(1, 0), (1, 0), (1, 0), (1, 0)] ∧
    ¬ (1 : ℕ) < 1 :=
  ⟨by rfl, by omega⟩

/-! ## Claim theorems: event handling -/

/-- **C8.** Auto-repeat key-down events leave all four control flags
unchanged; each non-repeat key-down (key-up) of W, S, A, D sets go_up,
go_down, go_left, go_right respectively to true (false);
`handle_event` returns true exactly when one of these four flags was
assigned; and no other event changes the control state. -/
theorem handle_event_spec (evt : SDLEvent) (c : Controls) :
    (evt.etype = .keydown → evt.key_repeat = true → handle_event evt c = (false, c)) ∧
    (¬ (evt.etype = .keydown ∧ evt.key_repeat = true) →
      (evt.etype = .keydown ∨ evt.etype = .keyup) →
      ((evt.scancode = .scanW →
          handle_event evt c = (true, { c with go_up := evt.etype = .keydown })) ∧
       (evt.scancode = .scanS →
          handle_event evt c = (true, { c with go_down := evt.etype = .keydown })) ∧
       (evt.scancode = .scanA →
          handle_event evt c = (true, { c with go_left := evt.etype = .keydown })) ∧
       (evt.scancode = .scanD →
          handle_event evt c = (true, { c with go_right := evt.etype = .keydown })) ∧
       (evt.scancode = .scanOther → handle_event evt c = (false, c)))) ∧
    (evt.etype = .other → handle_event evt c = (false, c)) ∧
    ((handle_event evt c).1 = true ↔
      ¬ (evt.etype = .keydown ∧ evt.key_repeat = true) ∧
        (evt.etype = .keydown ∨ evt.etype = .keyup) ∧ evt.scancode ≠ .scanOther) := by
  obtain ⟨et, rep, sc⟩ := evt
  cases et <;> cases rep <;> cases sc <;> simp [handle_event]

theorem handle_event_spec_witness :
    handle_event ⟨.keydown, false, .scanW⟩ ⟨false, false, false, false⟩ =
      (true, ⟨true, false, false, false⟩) :=
  ((handle_event_spec ⟨.keydown, false, .scanW⟩ ⟨false, false, false, false⟩).2.1
    (by simp) (Or.inl rfl)).1 rfl


/-! ## Claim theorems: mesh catalog -/

lemma lookup_append {α β : Type} [BEq α] (l1 l2 : List (α × β)) (k : α) :
    (l1 ++ l2).lookup k = (l1.lookup k).or (l2.lookup k) := by
  induction l1 with
  | nil => simp [List.lookup, Option.or]
  | cons p t ih =>
    obtain ⟨a, b⟩ := p
    cases hka : k == a <;> simp [List.lookup, hka, ih, Option.or]

lemma lookup_mem {α β : Type} [BEq α] [LawfulBEq α] {l : List (α × β)} {k : α} {v : β}
    (h : l.lookup k = some v) : (k, v) ∈ l := by
  induction l with
  | nil => simp [List.lookup] at h
  | cons p t ih =>
    obtain ⟨a, b⟩ := p
    cases hka : k == a with
    | false =>
      simp only [List.lookup, hka] at h
      exact List.mem_cons_of_mem _ (ih h)
    | true =>
      simp only [List.lookup, hka] at h
      obtain rfl : b = v := by injection h
      have hk : k = a := eq_of_beq hka
      subst hk
      exact List.mem_cons_self _ _

lemma lookup_append_singleton_eq_none {α β : Type} [BEq α] [LawfulBEq α]
    (l : List (α × β)) (k a : α) (b : β) :
    (l ++ [(a, b)]).lookup k = none ↔ l.lookup k = none ∧ k ≠ a := by
  rw [lookup_append]
  cases h : l.lookup k with
  | some v => simp [Option.or]
  | none =>
    simp only [Option.or]
    cases hka : k == a with
    | true =>
      have hk : k = a := eq_of_beq hka
      subst hk
      simp [List.lookup]
    | false =>
      have hk : k ≠ a := fun hc => by simp [hc] at hka
      simp [List.lookup, hka, hk]

lemma lookup_append_singleton_self {α β : Type} [BEq α] [LawfulBEq α]
    (l : List (α × β)) (a : α) (b : β) (h : l.lookup a = none) :
    (l ++ [(a, b)]).lookup a = some b := by
  rw [lookup_append, h]
  simp [List.lookup, Option.or]

lemma lookup_append_singleton_of_some {α β : Type} [BEq α] (l : List (α × β))
    (p : α × β) {k : α} {v : β} (h : l.lookup k = some v) :
    (l ++ [p]).lookup k = some v := by
  rw [lookup_append, h]
  rfl

lemma bind_ok {α β : Type} {x : Except String α} {f : α → Except String β} {b : β}
    (h : x >>= f = .ok b) : ∃ a, x = .ok a ∧ f a = .ok b := by
  cases x with
  | error msg =>
    rw [show ((Except.error msg : Except String α) >>= f) = .error msg from rfl] at h
    exact Except.noConfusion h
  | ok a =>
    rw [show ((Except.ok a : Except String α) >>= f) = f a from rfl] at h
    exact ⟨a, rfl, h⟩

lemma loadIndex_cons (names : List Char) (nV : ℕ) (e : IndexEntry)
    (es : List IndexEntry) (acc : List (List Char × Mesh)) :
    loadIndex names nV (e :: es) acc =
      if e.name_begin > e.name_end ∨ e.name_end > names.length then
        .error "invalid name indices in index."
      else if e.vertex_begin > e.vertex_end ∨ e.vertex_end > nV then
        .error "invalid vertex indices in index."
      else if (acc.lookup (extractName names e)).isSome then
        .error "duplicate name in index."
      else
        loadIndex names nV es
          (acc ++ [(extractName names e, ⟨e.vertex_begin, e.vertex_end - e.vertex_begin⟩)]) := by
  rw [loadIndex]

/-- Characterization of when the index-building loop succeeds. -/
lemma loadIndex_ok_iff (names : List Char) (nV : ℕ) :
    ∀ (es : List IndexEntry) (acc : List (List Char × Mesh)),
    (∃ m, loadIndex names nV es acc = .ok m) ↔
      ((∀ e ∈ es, ¬ badEntry names nV e) ∧
       es.Pairwise (fun a b => extractName names a ≠ extractName names b) ∧
       (∀ e ∈ es, acc.lookup (extractName names e) = none)) := by
  intro es
  induction es with
  | nil =>
    intro acc
    constructor
    · intro _
      exact ⟨fun e he => absurd he (List.not_mem_nil e), List.Pairwise.nil,
        fun e he => absurd he (List.not_mem_nil e)⟩
    · intro _
      exact ⟨acc, rfl⟩
  | cons e es ih =>
    intro acc
    by_cases h1 : e.name_begin > e.name_end ∨ e.name_end > names.length
    · apply iff_of_false
      · rintro ⟨m, hm⟩
        rw [loadIndex_cons, if_pos h1] at hm
        exact Except.noConfusion hm
      · rintro ⟨hA, -, -⟩
        exact hA e (List.mem_cons_self e es) (by unfold badEntry; tauto)
    · by_cases h2 : e.vertex_begin > e.vertex_end ∨ e.vertex_end > nV
      · apply iff_of_false
        · rintro ⟨m, hm⟩
          rw [loadIndex_cons, if_neg h1, if_pos h2] at hm
          exact Except.noConfusion hm
        · rintro ⟨hA, -, -⟩
          exact hA e (List.mem_cons_self e es) (by unfold badEntry; tauto)
      · by_cases h3 : (acc.lookup (extractName names e)).isSome
        · apply iff_of_false
          · rintro ⟨m, hm⟩
            rw [loadIndex_cons, if_neg h1, if_neg h2, if_pos h3] at hm
            exact Except.noConfusion hm
          · rintro ⟨-, -, hC⟩
            rw [hC e (List.mem_cons_self e es)] at h3
            simp at h3
        · have hnone : acc.lookup (extractName names e) = none :=
            Option.not_isSome_iff_eq_none.mp h3
          have hbadE : ¬ badEntry names nV e := by unfold badEntry; tauto
          simp only [loadIndex_cons, if_neg h1, if_neg h2, if_neg h3]
          rw [ih (acc ++ [(extractName names e,
            (⟨e.vertex_begin, e.vertex_end - e.vertex_begin⟩ : Mesh))])]
          constructor
          · rintro ⟨hA, hB, hC⟩
            refine ⟨?_, ?_, ?_⟩
            · intro x hx
              rcases List.mem_cons.mp hx with rfl | hx2
              · exact hbadE
              · exact hA x hx2
            · rw [List.pairwise_cons]
              refine ⟨?_, hB⟩
              intro b hb
              have hd := (lookup_append_singleton_eq_none acc _ _ _).mp (hC b hb)
              exact fun hEq => hd.2 hEq.symm
            · intro x hx
              rcases List.mem_cons.mp hx with rfl | hx2
              · exact hnone
              · exact ((lookup_append_singleton_eq_none acc _ _ _).mp (hC x hx2)).1
          · rintro ⟨hA, hB, hC⟩
            rw [List.pairwise_cons] at hB
            refine ⟨fun x hx => hA x (List.mem_cons_of_mem e hx), hB.2, ?_⟩
            intro x hx
            refine (lookup_append_singleton_eq_none acc _ _ _).mpr
              ⟨hC x (List.mem_cons_of_mem e hx), ?_⟩
            exact fun hEq => (hB.1 x hx) hEq.symm

/-- On success, the final map retains the accumulator and maps every
entry name to that entry's mesh. -/
lemma loadIndex_ok_lookup (names : List Char) (nV : ℕ) :
    ∀ (es : List IndexEntry) (acc m : List (List Char × Mesh)),
      loadIndex names nV es acc = .ok m →
      (∀ k v, acc.lookup k = some v → m.lookup k = some v) ∧
      (∀ e ∈ es, m.lookup (extractName names e) =
        some ⟨e.vertex_begin, e.vertex_end - e.vertex_begin⟩) := by
  intro es
  induction es with
  | nil =>
    intro acc m hm
    simp only [loadIndex] at hm
    obtain rfl : acc = m := by injection hm
    exact ⟨fun k v h => h, fun e he => absurd he (List.not_mem_nil e)⟩
  | cons e es ih =>
    intro acc m hm
    rw [loadIndex_cons] at hm
    split_ifs at hm with h1 h2 h3
    obtain ⟨hpres, hes⟩ := ih _ _ hm
    have hnone : acc.lookup (extractName names e) = none :=
      Option.not_isSome_iff_eq_none.mp h3
    refine ⟨?_, ?_⟩
    · intro k v hkv
      exact hpres k v (lookup_append_singleton_of_some acc _ hkv)
    · intro x hx
      rcases List.mem_cons.mp hx with rfl | hx2
      · exact hpres _ _ (lookup_append_singleton_self acc _ _ hnone)
      · exact hes x hx2

/-- On success, every pair in the final map originates in the
accumulator or in some entry. -/
lemma loadIndex_ok_mem (names : List Char) (nV : ℕ) :
    ∀ (es : List IndexEntry) (acc m : List (List Char × Mesh)),
      loadIndex names nV es acc = .ok m →
      ∀ p ∈ m, p ∈ acc ∨ ∃ e ∈ es,
        p = (extractName names e, ⟨e.vertex_begin, e.vertex_end - e.vertex_begin⟩) := by
  intro es
  induction es with
  | nil =>
    intro acc m hm p hp
    simp only [loadIndex] at hm
    obtain rfl : acc = m := by injection hm
    exact Or.inl hp
  | cons e es ih =>
    intro acc m hm p hp
    rw [loadIndex_cons] at hm
    split_ifs at hm with h1 h2 h3
    rcases ih _ _ hm p hp with hacc | ⟨e2, he2, heq⟩
    · rcases List.mem_append.mp hacc with h | h
      · exact Or.inl h
      · refine Or.inr ⟨e, List.mem_cons_self e es, ?_⟩
        simpa using h
    · exact Or.inr ⟨e2, List.mem_cons_of_mem e he2, heq⟩

/-- **C7.** `loadIndex` fails with a format error iff some index entry
references name or vertex ranges outside the loaded buffers (that is,
`name_begin > name_end`, `name_end > names.size()`,
`vertex_begin > vertex_end`, or `vertex_end > vertices.size()`) or two
index entries produce the same name; on success every entry yields a
Mesh with `first = vertex_begin` and `count = vertex_end - vertex_begin`. -/
theorem load_error_iff_and_success (names : List Char) (nV : ℕ)
    (entries : List IndexEntry) :
    ((∃ msg, loadIndex names nV entries [] = .error msg) ↔
      ((∃ e ∈ entries, badEntry names nV e) ∨
       ∃ i j : Fin entries.length, i < j ∧
         extractName names (entries.get i) = extractName names (entries.get j))) ∧
    (∀ m, loadIndex names nV entries [] = .ok m →
      ∀ e ∈ entries, m.lookup (extractName names e) =
        some ⟨e.vertex_begin, e.vertex_end - e.vertex_begin⟩) := by
  constructor
  · have hiff := loadIndex_ok_iff names nV entries []
    have herr : (∃ msg, loadIndex names nV entries [] = .error msg) ↔
        ¬ ∃ m, loadIndex names nV entries [] = .ok m := by
      cases hres : loadIndex names nV entries [] with
      | error msg =>
        exact iff_of_true ⟨msg, rfl⟩ (by rintro ⟨m, hm⟩; exact Except.noConfusion hm)
      | ok m =>
        refine iff_of_false ?_ (by intro hn; exact hn ⟨m, rfl⟩)
        rintro ⟨msg, hm⟩
        exact Except.noConfusion hm
    rw [herr, hiff]
    have htriv : ∀ e ∈ entries,
        (([] : List (List Char × Mesh)).lookup (extractName names e)) = none :=
      fun e _ => rfl
    constructor
    · intro hne
      by_cases hbad : ∃ e ∈ entries, badEntry names nV e
      · exact Or.inl hbad
      · refine Or.inr ?_
        have hnp : ¬ entries.Pairwise
            (fun a b => extractName names a ≠ extractName names b) := by
          intro hp
          push_neg at hbad
          exact hne ⟨hbad, hp, htriv⟩
        rw [List.pairwise_iff_get] at hnp
        push_neg at hnp
        obtain ⟨i, j, hij, heq⟩ := hnp
        exact ⟨i, j, hij, heq⟩
    · rintro hor ⟨hA, hB, -⟩
      rcases hor with ⟨e, he, hbad⟩ | ⟨i, j, hij, heq⟩
      · exact (hA e he) hbad
      · rw [List.pairwise_iff_get] at hB
        exact (hB i j hij) heq
  · intro m hm
    exact (loadIndex_ok_lookup names nV entries [] m hm).2

theorem load_error_iff_and_success_witness :
    ([((['A'] : List Char), (⟨0, 2⟩ : Mesh))].lookup
        (extractName ['A'] ⟨0, 1, 0, 2⟩)) = some ⟨0, 2⟩ :=
  (load_error_iff_and_success ['A'] 2 [⟨0, 1, 0, 2⟩]).2
    [(['A'], ⟨0, 2⟩)] (by rfl) ⟨0, 1, 0, 2⟩ (List.mem_singleton.mpr rfl)

/-- **C6 (amended).** Whenever the whole catalog load succeeds, looking
up any of the 7 required names succeeds and returns the Mesh of the
entry bearing that name, with `first = vertex_begin` and
`count = vertex_end - vertex_begin` — but that count may be zero: the
load never checks `count > 0`
(see `catalog_zero_count_counterexample`). -/
theorem required_lookup_of_load_ok (names : List Char) (nV : ℕ)
    (entries : List IndexEntry) (ms : List Mesh)
    (hok : gameLoadMeshes names nV entries = .ok ms) :
    ∃ index, loadIndex names nV entries [] = .ok index ∧
      ∀ nm ∈ requiredNames, ∃ m, lookupMesh index nm = .ok m ∧
        ∃ e ∈ entries, extractName names e = nm ∧
          m.first = e.vertex_begin ∧ m.count = e.vertex_end - e.vertex_begin := by
  unfold gameLoadMeshes at hok
  cases hres : loadIndex names nV entries [] with
  | error msg =>
    rw [hres] at hok
    exact Except.noConfusion hok
  | ok index =>
    rw [hres] at hok
    have origin : ∀ nm m, lookupMesh index nm = .ok m →
        ∃ e ∈ entries, extractName names e = nm ∧ m.first = e.vertex_begin ∧
          m.count = e.vertex_end - e.vertex_begin := by
      intro nm m hlm
      have hl : index.lookup nm = some m := by
        unfold lookupMesh at hlm
        cases hll : index.lookup nm with
        | none =>
          rw [hll] at hlm
          exact Except.noConfusion hlm
        | some v =>
          rw [hll] at hlm
          obtain rfl : v = m := by injection hlm
          rfl
      have hmem := lookup_mem hl
      rcases loadIndex_ok_mem names nV entries [] index hres (nm, m) hmem with
        habs | ⟨e, he, heq⟩
      · exact absurd habs (List.not_mem_nil _)
      · injection heq with hnm hmesh
        refine ⟨e, he, hnm.symm, ?_, ?_⟩
        · rw [hmesh]
        · rw [hmesh]
    refine ⟨index, rfl, ?_⟩
    obtain ⟨mA, hA, hok⟩ := bind_ok hok
    obtain ⟨mP, hP, hok⟩ := bind_ok hok
    obtain ⟨mB, hB, hok⟩ := bind_ok hok
    obtain ⟨mJ, hJ, hok⟩ := bind_ok hok
    obtain ⟨mC, hC, hok⟩ := bind_ok hok
    obtain ⟨mS, hS, hok⟩ := bind_ok hok
    obtain ⟨mT, hT, hok⟩ := bind_ok hok
    intro nm hnm
    simp only [requiredNames, List.mem_cons, List.not_mem_nil, or_false] at hnm
    rcases hnm with rfl | rfl | rfl | rfl | rfl | rfl | rfl
    · exact ⟨mA, hA, origin _ mA hA⟩
    · exact ⟨mP, hP, origin _ mP hP⟩
    · exact ⟨mB, hB, origin _ mB hB⟩
    · exact ⟨mJ, hJ, origin _ mJ hJ⟩
    · exact ⟨mC, hC, origin _ mC hC⟩
    · exact ⟨mS, hS, origin _ mS hS⟩
    · exact ⟨mT, hT, origin _ mT hT⟩

theorem required_lookup_of_load_ok_witness :
    ∃ index, loadIndex exNames 0 exEntries [] = .ok index ∧
      ∀ nm ∈ requiredNames, ∃ m, lookupMesh index nm = .ok m ∧
        ∃ e ∈ exEntries, extractName exNames e = nm ∧
          m.first = e.vertex_begin ∧ m.count = e.vertex_end - e.vertex_begin :=
  required_lookup_of_load_ok exNames 0 exEntries
    [⟨0, 0⟩, ⟨0, 0⟩, ⟨0, 0⟩, ⟨0, 0⟩, ⟨0, 0⟩, ⟨0, 0⟩, ⟨0, 0⟩] (by rfl)

/-- **C6 counterexample.**  A blob whose seven required entries all have
empty vertex ranges loads successfully, yet every one of the seven
required meshes it returns has `count = 0`, not `count > 0`. -/
theorem catalog_zero_count_counterexample :
    gameLoadMeshes exNames 0 exEntries =
      .ok [⟨0, 0⟩, ⟨0, 0⟩, ⟨0, 0⟩, ⟨0, 0⟩, ⟨0, 0⟩, ⟨0, 0⟩, ⟨0, 0⟩] ∧
    ¬ 0 < (Mesh.mk 0 0).count :=
  ⟨by rfl, by decide⟩

end Game0
